import Mathlib

/-
Verification of the Jobofcron application-queue / registry / persistence core.

Shallow embedding conventions:
- Python `datetime` values are modelled as abstract ticks (`DateTime := Nat`);
  `datetime.now()` is threaded as an explicit `now` argument.  ISO-8601
  serialisation (`isoformat` / `fromisoformat`) is a bijection on the datetime
  values that occur, so it is modelled by the identity on ticks.
- Python `dict` is modelled as an insertion-ordered association list with
  unique keys; assignment updates the first matching key in place, otherwise
  appends (`dictSet`), exactly the observable behaviour of dict assignment.
- `Optional[str]` fields are `Option String`; Python truthiness of an
  optional string (`if value:`) is `truthy` below.
- Python `sorted` is a stable sort; it is modelled by a stable insertion
  sort under a strict Bool-valued comparison (`stableSortBy`).
-/

namespace Jobofcron

abbrev DateTime := Nat

/-- ISO-8601 rendering of a datetime; serialisation is modelled as the
identity on abstract ticks (fromisoformat of isoformat is the identity in
the source). -/
def isoformat (d : DateTime) : DateTime := d

/-- Inverse of `isoformat` (datetime.fromisoformat). -/
def fromisoformat (d : DateTime) : DateTime := d

/-- Rendering of a datetime into the human-readable note strings
(datetime.isoformat(timespec="seconds")). -/
def isoSeconds (d : DateTime) : String := toString d

/-- Python truthiness of an `Optional[str]`. -/
def truthy : Option String → Bool
  | none => false
  | some s => s ≠ ""

/-- Python `str.lower()` (case folding, character by character). -/
def pyLower (s : String) : String := String.mk (s.data.map Char.toLower)

/-- Python `str.strip()`: drop whitespace from both ends. -/
def pyStrip (s : String) : String :=
  String.mk (((s.data.dropWhile Char.isWhitespace).reverse.dropWhile
    Char.isWhitespace).reverse)

/-- Chunks of a character list between (and around) separator characters;
each separator splits, so runs of separators yield empty chunks. -/
def chunksBy (p : Char → Bool) : List Char → List (List Char)
  | [] => [[]]
  | c :: cs =>
    match chunksBy p cs with
    | [] => if p c then [[], []] else [[c]]
    | w :: ws => if p c then [] :: w :: ws else (c :: w) :: ws

/-- Python `str.split()` with no argument: split on whitespace runs,
dropping empty pieces. -/
def pySplitWs (s : String) : List String :=
  ((chunksBy Char.isWhitespace s.data).map String.mk).filter (· ≠ "")

/-- Python `sep.join(parts)`. -/
def joinWith (sep : String) : List String → String
  | [] => ""
  | [x] => x
  | x :: xs => x ++ sep ++ joinWith sep xs

/-- Python `str.rstrip("/")`. -/
def rstripSlash (s : String) : String :=
  String.mk ((s.data.reverse.dropWhile (· = '/')).reverse)

/-- Python `s.split(c, 1)` for a single-character separator: the part
before the first occurrence of `c`, and the remainder when `c` occurs. -/
def splitFirstChar (s : String) (c : Char) : String × Option String :=
  let pre := s.data.takeWhile (· ≠ c)
  match s.data.drop pre.length with
  | [] => (s, none)
  | _ :: rest => (String.mk pre, some (String.mk rest))

/-- Result of `urllib.parse.urlsplit`. -/
structure UrlParts where
  scheme : String
  netloc : String
  path : String
  query : String
  fragment : String
deriving Repr, DecidableEq

/-- Characters allowed in a URL scheme (letters, digits, `+`, `-`, `.`). -/
def isSchemeChar (c : Char) : Bool :=
  c.isAlphanum || c = '+' || c = '-' || c = '.'

/-- Scheme-splitting step of `urlsplit`: a leading `name:` is a scheme when
`name` is non-empty, starts with a letter and uses only scheme characters. -/
def splitScheme (s : String) : String × String :=
  match splitFirstChar s ':' with
  | (before, some after) =>
    if before ≠ "" ∧ (before.data.headD 'a').isAlpha = true ∧ before.data.all isSchemeChar
    then (pyLower before, after)
    else ("", s)
  | (_, none) => ("", s)

/-- Whether the remaining URL starts with the authority marker `//`. -/
def startsWithSlashSlash (s : String) : Bool :=
  match s.data with
  | '/' :: '/' :: _ => true
  | _ => false

/-- Netloc-splitting step of `urlsplit`: after a leading `//`, the authority
runs up to the first `/`, `?` or `#`. -/
def splitNetloc (s : String) : String × String :=
  let l := s.data
  let netl := l.takeWhile (fun c => c ≠ '/' ∧ c ≠ '?' ∧ c ≠ '#')
  (String.mk netl, String.mk (l.drop netl.length))

/-- Model of `urllib.parse.urlparse` as used by `_normalise_url` (the
`params` component is unused there, so `urlsplit` suffices): fragment after
the first `#`, query after the first `?`, netloc after a leading `//`. -/
def urlsplit (url : String) : UrlParts :=
  let p1 := splitScheme url
  let p2 :=
    if startsWithSlashSlash p1.2
    then splitNetloc (String.mk (p1.2.data.drop 2))
    else ("", p1.2)
  let p3 := splitFirstChar p2.2 '#'
  let p4 := splitFirstChar p3.1 '?'
  ⟨p1.1, p2.1, p4.1, (p4.2).getD "", (p3.2).getD ""⟩

/-- job_history._normalise_text. -/
def normaliseText (value : Option String) : String :=
  match value with
  | none => ""
  | some v =>
    if v = "" then ""
    else joinWith " " (pySplitWs (pyLower (pyStrip v)))

/-- job_history._normalise_url. -/
def normaliseUrl (url : Option String) : Option String :=
  match url with
  | none => none
  | some u =>
    if u = "" then none
    else
      let parsed := urlsplit u
      let netloc := pyLower parsed.netloc
      let path := rstripSlash parsed.path
      let query := if parsed.query ≠ "" then "?" ++ parsed.query else ""
      if netloc = "" ∧ path = "" then none
      else some ("url::" ++ netloc ++ path ++ query)

/-- job_history._combo_key. -/
def comboKey (title company : Option String) : Option String :=
  let titleKey := normaliseText title
  let companyKey := normaliseText company
  if titleKey = "" ∧ companyKey = "" then none
  else some ("role::" ++ companyKey ++ "::" ++ titleKey)

/-! Python dict, modelled as an insertion-ordered association list. -/

abbrev Dict (α : Type) := List (String × α)

/-- Python `d.get(k)`: the value stored under the first (unique) matching
key, if any. -/
def dictGet {α : Type} : Dict α → String → Option α
  | [], _ => none
  | (k', v') :: rest, k => if k' = k then some v' else dictGet rest k

/-- Python `k in d`. -/
def dictMem {α : Type} (d : Dict α) (k : String) : Bool :=
  (dictGet d k).isSome

/-- Python `d[k] = v`: update the entry in place when the key exists,
otherwise append, preserving insertion order. -/
def dictSet {α : Type} : Dict α → String → α → Dict α
  | [], k, v => [(k, v)]
  | (k', v') :: rest, k, v =>
    if k' = k then (k, v) :: rest else (k', v') :: dictSet rest k v

/-- Python `d.values()`. -/
def dictValues {α : Type} (d : Dict α) : List α := d.map (fun p => p.2)

theorem dictGet_dictSet {α : Type} (d : Dict α) (k x : String) (v : α) :
    dictGet (dictSet d k v) x = if x = k then some v else dictGet d x := by
  induction d with
  | nil =>
    by_cases h : x = k
    · subst h; simp [dictSet, dictGet]
    · simp [dictSet, dictGet, h, Ne.symm h]
  | cons hd tl ih =>
    obtain ⟨k', v'⟩ := hd
    by_cases hk : k' = k
    · subst hk
      by_cases hx : x = k'
      · subst hx; simp [dictSet, dictGet]
      · simp [dictSet, dictGet, hx, Ne.symm hx]
    · simp only [dictSet, if_neg hk]
      by_cases hx : x = k'
      · subst hx
        have hxk : ¬x = k := fun h => hk h
        simp [dictGet, hxk]
      · simp [dictGet, Ne.symm hx, ih]

theorem dictSet_append_of_not_mem {α : Type} (d : Dict α) (k : String) (v : α)
    (h : dictGet d k = none) : dictSet d k v = d ++ [(k, v)] := by
  induction d with
  | nil => rfl
  | cons hd tl ih =>
    obtain ⟨k', v'⟩ := hd
    by_cases hk : k' = k
    · exfalso; simp [dictGet, hk] at h
    · simp only [dictGet, if_neg hk] at h
      simp [dictSet, hk, ih h]

/-- Registering a run of alias keys: `for key in keys: aliases[key] = value`. -/
def aliasAll (a : Dict String) (keys : List String) (v : String) : Dict String :=
  keys.foldl (fun acc k => dictSet acc k v) a

theorem dictGet_aliasAll (a : Dict String) (keys : List String) (v x : String) :
    dictGet (aliasAll a keys v) x = if x ∈ keys then some v else dictGet a x := by
  induction keys generalizing a with
  | nil => simp [aliasAll]
  | cons k ks ih =>
    simp only [aliasAll, List.foldl_cons] at ih ⊢
    rw [ih (dictSet a k v), dictGet_dictSet]
    by_cases h1 : x ∈ ks
    · simp [h1]
    · by_cases h2 : x = k <;> simp [h1, h2, List.mem_cons]

/-! Python `sorted(xs, key=...)`: a stable sort under the strict comparison
`lt` induced by the key, modelled by a stable insertion sort (any two stable
sorts of the same list under the same comparison agree). -/

/-- Insert `x` after every element strictly smaller under `lt`, so that
elements comparing equal keep their original relative order. -/
def insertStable {α : Type} (lt : α → α → Bool) (x : α) : List α → List α
  | [] => [x]
  | y :: ys => if lt y x then y :: insertStable lt x ys else x :: y :: ys

/-- Stable sort ascending under `lt`. -/
def stableSortBy {α : Type} (lt : α → α → Bool) : List α → List α
  | [] => []
  | x :: xs => insertStable lt x (stableSortBy lt xs)

theorem mem_insertStable {α : Type} (lt : α → α → Bool) (x a : α)
    (l : List α) : a ∈ insertStable lt x l ↔ a = x ∨ a ∈ l := by
  induction l with
  | nil => simp [insertStable]
  | cons y ys ih =>
    by_cases h : lt y x
    · simp only [insertStable, if_pos h, List.mem_cons, ih]
      tauto
    · simp only [insertStable, if_neg h, List.mem_cons]

theorem insertStable_perm {α : Type} (lt : α → α → Bool) (x : α)
    (l : List α) : (insertStable lt x l).Perm (x :: l) := by
  induction l with
  | nil => simp [insertStable]
  | cons y ys ih =>
    by_cases h : lt y x
    · simp only [insertStable, if_pos h]
      exact (ih.cons y).trans (List.Perm.swap x y ys)
    · simp [insertStable, if_neg h]

theorem stableSortBy_perm {α : Type} (lt : α → α → Bool)
    (l : List α) : (stableSortBy lt l).Perm l := by
  induction l with
  | nil => simp [stableSortBy]
  | cons x xs ih =>
    exact (insertStable_perm lt x (stableSortBy lt xs)).trans (ih.cons x)

theorem mem_stableSortBy {α : Type} (lt : α → α → Bool) (a : α)
    (l : List α) : a ∈ stableSortBy lt l ↔ a ∈ l :=
  (stableSortBy_perm lt l).mem_iff

theorem sorted_insertStable {α : Type} (lt : α → α → Bool)
    (hasymm : ∀ a b, lt a b = true → lt b a = false)
    (htrans : ∀ a b c, lt b a = false → lt c b = false → lt c a = false)
    (x : α) (l : List α) (h : l.Pairwise (fun a b => lt b a = false)) :
    (insertStable lt x l).Pairwise (fun a b => lt b a = false) := by
  induction l with
  | nil => simp [insertStable]
  | cons y ys ih =>
    rcases List.pairwise_cons.mp h with ⟨hy, hys⟩
    by_cases hlt : lt y x
    · simp only [insertStable, if_pos hlt]
      refine List.pairwise_cons.mpr ⟨?_, ih hys⟩
      intro a ha
      rcases (mem_insertStable lt x a ys).mp ha with rfl | ha
      · exact hasymm y a hlt
      · exact hy a ha
    · simp only [insertStable, if_neg hlt]
      refine List.pairwise_cons.mpr ⟨?_, h⟩
      intro a ha
      have hyx : lt y x = false := Bool.eq_false_iff.mpr hlt
      rcases List.mem_cons.mp ha with rfl | ha
      · exact hyx
      · exact htrans x y a hyx (hy a ha)

theorem sorted_stableSortBy {α : Type} (lt : α → α → Bool)
    (hasymm : ∀ a b, lt a b = true → lt b a = false)
    (htrans : ∀ a b c, lt b a = false → lt c b = false → lt c a = false)
    (l : List α) :
    (stableSortBy lt l).Pairwise (fun a b => lt b a = false) := by
  induction l with
  | nil => simp [stableSortBy]
  | cons x xs ih => exact sorted_insertStable lt hasymm htrans x _ ih

/-- Lexicographic comparison of code-point sequences: the model of Python
string `<`. -/
def strLtList : List Char → List Char → Bool
  | [], [] => false
  | [], _ :: _ => true
  | _ :: _, [] => false
  | a :: as, b :: bs =>
    if a.toNat < b.toNat then true
    else if b.toNat < a.toNat then false
    else strLtList as bs

/-- Python string `<` (lexicographic on code points). -/
def pyStrLt (a b : String) : Bool := strLtList a.data b.data

theorem strLtList_asymm (a b : List Char) (h : strLtList a b = true) :
    strLtList b a = false := by
  induction a generalizing b with
  | nil =>
    cases b with
    | nil => simp [strLtList] at h
    | cons y ys => simp [strLtList]
  | cons x xs ih =>
    cases b with
    | nil => simp [strLtList] at h
    | cons y ys =>
      simp only [strLtList] at h ⊢
      by_cases h1 : x.toNat < y.toNat
      · simp [show ¬ y.toNat < x.toNat by omega, h1]
      · by_cases h2 : y.toNat < x.toNat
        · simp [h1, h2] at h
        · rw [if_neg h1, if_neg h2] at h
          rw [if_neg h2, if_neg h1]
          exact ih ys h

theorem strLtList_negtrans (a b c : List Char) (h1 : strLtList b a = false)
    (h2 : strLtList c b = false) : strLtList c a = false := by
  induction a generalizing b c with
  | nil =>
    cases c with
    | nil => simp [strLtList]
    | cons z zs => simp [strLtList]
  | cons x xs ih =>
    cases b with
    | nil => simp [strLtList] at h1
    | cons y ys =>
      cases c with
      | nil => simp [strLtList] at h2
      | cons z zs =>
        simp only [strLtList] at h1 h2 ⊢
        by_cases hyx : y.toNat < x.toNat
        · simp [hyx] at h1
        · by_cases hzy : z.toNat < y.toNat
          · simp [hzy] at h2
          · have hzx : ¬ z.toNat < x.toNat := by omega
            simp only [hzx, if_false]
            by_cases hxz : x.toNat < z.toNat
            · simp [hxz]
            · have hxy : ¬ x.toNat < y.toNat := by omega
              have hyz : ¬ y.toNat < z.toNat := by omega
              simp only [hyx, hxy, if_false] at h1
              simp only [hzy, hyz, if_false] at h2
              simp only [hxz, if_false]
              exact ih ys zs h1 h2

/-- job_matching.JobPosting.  The dataclass in job_matching.py declares the
first eight fields; `apply_url` and `contact_email` are modelled from the
spec: §3 lists both as optional JobPosting fields, and every constructor
call in the repository (cli.py, streamlit_app.py, application_queue.from_dict)
passes them while job_history and application_queue read them, but their
declarations are missing from the dataclass in src. -/
structure JobPosting where
  title : String
  company : String
  id : Option String := none
  location : Option String := none
  salary_text : Option String := none
  description : String := ""
  tags : List String := []
  felon_friendly : Option Bool := none
  apply_url : Option String := none
  contact_email : Option String := none
deriving Repr, DecidableEq

/-- job_history.AppliedJobRecord. -/
structure AppliedJobRecord where
  key : String
  title : String
  company : String
  apply_url : Option String
  first_seen_at : DateTime
  last_seen_at : DateTime
  last_status : Option String := none
  occurrences : Int := 1
deriving Repr, DecidableEq

/-- AppliedJobRecord.touch. -/
def AppliedJobRecord.touch (r : AppliedJobRecord) (status : Option String)
    (now : DateTime) : AppliedJobRecord :=
  let r1 := { r with last_seen_at := now }
  let r2 := if truthy status then { r1 with last_status := status } else r1
  { r2 with occurrences := r2.occurrences + 1 }

/-- Serialised form of an AppliedJobRecord (AppliedJobRecord.to_dict). -/
structure RecordDict where
  key : String
  title : String
  company : String
  apply_url : Option String
  first_seen_at : DateTime
  last_seen_at : DateTime
  last_status : Option String
  occurrences : Int
deriving Repr, DecidableEq

/-- AppliedJobRecord.to_dict. -/
def AppliedJobRecord.to_dict (r : AppliedJobRecord) : RecordDict :=
  { key := r.key
    title := r.title
    company := r.company
    apply_url := r.apply_url
    first_seen_at := isoformat r.first_seen_at
    last_seen_at := isoformat r.last_seen_at
    last_status := r.last_status
    occurrences := r.occurrences }

/-- AppliedJobRecord.from_dict. -/
def AppliedJobRecord.from_dict (d : RecordDict) : AppliedJobRecord :=
  { key := d.key
    title := d.title
    company := d.company
    apply_url := d.apply_url
    first_seen_at := fromisoformat d.first_seen_at
    last_seen_at := fromisoformat d.last_seen_at
    last_status := d.last_status
    occurrences := d.occurrences }

theorem recordDict_roundtrip (r : AppliedJobRecord) :
    AppliedJobRecord.from_dict r.to_dict = r := rfl

/-- job_history.AppliedJobRegistry. -/
structure AppliedJobRegistry where
  records : Dict AppliedJobRecord := []
  aliases : Dict String := []
deriving Repr, DecidableEq

/-- AppliedJobRegistry._keys_for. -/
def keysFor (p : JobPosting) : List String :=
  let urlKeys : List String :=
    match normaliseUrl p.apply_url with
    | some k => [k]
    | none => []
  let comboKeys : List String :=
    match comboKey (some p.title) (some p.company) with
    | some c => [c]
    | none => []
  let keys := urlKeys ++ comboKeys
  if keys = [] then
    let fb := normaliseText (some p.title)
    ["fallback::" ++ (if fb = "" then "unknown" else fb)]
  else keys

theorem append_ne_empty (a b : String) (ha : a ≠ "") : a ++ b ≠ "" := by
  intro h
  apply ha
  have hd : a.data ++ b.data = ([] : List Char) := by
    have h2 := congrArg String.data h
    rwa [String.data_append] at h2
  exact String.ext (List.append_eq_nil.mp hd).1

theorem normaliseUrl_form (u : Option String) (k : String)
    (h : normaliseUrl u = some k) : ∃ s, k = "url::" ++ s := by
  cases u with
  | none => simp [normaliseUrl] at h
  | some v =>
    simp only [normaliseUrl] at h
    split_ifs at h <;>
      exact ⟨_, by rw [(Option.some.inj h).symm, String.append_assoc,
        String.append_assoc]⟩

theorem comboKey_form (t c : Option String) (k : String)
    (h : comboKey t c = some k) : ∃ s, k = "role::" ++ s := by
  simp only [comboKey] at h
  split_ifs at h
  exact ⟨_, by rw [(Option.some.inj h).symm, String.append_assoc,
    String.append_assoc]⟩

theorem urlKey_ne_comboKey (a b : String) : "url::" ++ a ≠ "role::" ++ b := by
  intro h
  have hd := congrArg String.data h
  rw [String.data_append, String.data_append] at hd
  simp [show "url::".data = ['u','r','l',':',':'] from rfl,
    show "role::".data = ['r','o','l','e',':',':'] from rfl] at hd

theorem keysFor_ne_nil (p : JobPosting) : keysFor p ≠ [] := by
  simp only [keysFor]
  cases hu : normaliseUrl p.apply_url <;>
    cases hc : comboKey (some p.title) (some p.company) <;> simp

theorem keysFor_ne_empty (p : JobPosting) : ∀ k ∈ keysFor p, k ≠ "" := by
  intro k hk
  simp only [keysFor] at hk
  cases hu : normaliseUrl p.apply_url <;>
    cases hc : comboKey (some p.title) (some p.company) <;>
      simp only [hu, hc, List.nil_append, List.append_nil] at hk
  · simp at hk
    subst hk
    exact append_ne_empty _ _ (by decide)
  · simp at hk
    subst hk
    obtain ⟨s, hs⟩ := comboKey_form _ _ _ hc
    rw [hs]; exact append_ne_empty _ _ (by decide)
  · simp at hk
    subst hk
    obtain ⟨s, hs⟩ := normaliseUrl_form _ _ hu
    rw [hs]; exact append_ne_empty _ _ (by decide)
  · simp at hk
    rcases hk with rfl | rfl
    · obtain ⟨s, hs⟩ := normaliseUrl_form _ _ hu
      rw [hs]; exact append_ne_empty _ _ (by decide)
    · obtain ⟨s, hs⟩ := comboKey_form _ _ _ hc
      rw [hs]; exact append_ne_empty _ _ (by decide)

/-- One iteration of the loop in AppliedJobRegistry.find: resolve the key
through the alias map (defaulting to the key itself) and look it up in
records. -/
def AppliedJobRegistry.resolveKey (r : AppliedJobRegistry) (key : String) :
    Option AppliedJobRecord :=
  dictGet r.records ((dictGet r.aliases key).getD key)

/-- AppliedJobRegistry.find: the first key that resolves to a record. -/
def AppliedJobRegistry.find (r : AppliedJobRegistry) (p : JobPosting) :
    Option AppliedJobRecord :=
  (keysFor p).findSome? r.resolveKey

/-- One iteration of the lookup loop at the top of
AppliedJobRegistry.record: a key hits when its alias target exists, is
truthy, and is present in records; the hit carries the target (the dict key
under which the existing record is stored) alongside the record. -/
def AppliedJobRegistry.lookupKey (r : AppliedJobRegistry) (key : String) :
    Option (String × AppliedJobRecord) :=
  match dictGet r.aliases key with
  | some target =>
    if target ≠ "" then
      (dictGet r.records target).map (fun rec => (target, rec))
    else none
  | none => none

/-- Lookup loop at the top of AppliedJobRegistry.record. -/
def AppliedJobRegistry.findExisting (r : AppliedJobRegistry)
    (keys : List String) : Option (String × AppliedJobRecord) :=
  keys.findSome? r.lookupKey

/-- Body of the existing-record branch of AppliedJobRegistry.record: touch
the record, re-apply the status when the record had none, then refresh
apply_url, company and title from truthy incoming posting fields.  (In the
source these are in-place mutations of the record object held by the
records dict.) -/
def touchedRecord (existing : AppliedJobRecord) (p : JobPosting)
    (status : Option String) (now : DateTime) : AppliedJobRecord :=
  let e1 := existing.touch status now
  let e2 :=
    if truthy status ∧ ¬ truthy e1.last_status
    then { e1 with last_status := status } else e1
  let e3 := if truthy p.apply_url then { e2 with apply_url := p.apply_url } else e2
  let e4 := if p.company ≠ "" then { e3 with company := p.company } else e3
  if p.title ≠ "" then { e4 with title := p.title } else e4

/-- AppliedJobRegistry.record.  Mutation is made explicit: the result is the
updated registry together with the record the call returns (the same record
object the records dict holds).  The source registers the alias keys before
refreshing the record fields, but the aliases depend only on `existing.key`,
which the refresh never changes, so the order is immaterial. -/
def AppliedJobRegistry.record (r : AppliedJobRegistry) (p : JobPosting)
    (status : Option String) (now : DateTime) :
    AppliedJobRegistry × AppliedJobRecord :=
  let keys := keysFor p
  match r.findExisting keys with
  | some (target, existing) =>
    let e := touchedRecord existing p status now
    (⟨dictSet r.records target e, aliasAll r.aliases keys existing.key⟩, e)
  | none =>
    let primary := keys.headD ""
    let rec0 : AppliedJobRecord :=
      { key := primary
        title := p.title
        company := p.company
        apply_url := p.apply_url
        first_seen_at := now
        last_seen_at := now
        last_status := status
        occurrences := 1 }
    (⟨dictSet r.records primary rec0, aliasAll r.aliases keys primary⟩, rec0)

theorem touchedRecord_occurrences (e : AppliedJobRecord) (p : JobPosting)
    (status : Option String) (now : DateTime) :
    (touchedRecord e p status now).occurrences = e.occurrences + 1 := by
  simp only [touchedRecord, AppliedJobRecord.touch]
  split_ifs <;> rfl

theorem touchedRecord_key (e : AppliedJobRecord) (p : JobPosting)
    (status : Option String) (now : DateTime) :
    (touchedRecord e p status now).key = e.key := by
  simp only [touchedRecord, AppliedJobRecord.touch]
  split_ifs <;> rfl

theorem touchedRecord_last_status_of_truthy (e : AppliedJobRecord)
    (p : JobPosting) (status : Option String) (now : DateTime)
    (h : truthy status = true) :
    (touchedRecord e p status now).last_status = status := by
  simp only [touchedRecord, AppliedJobRecord.touch, h]
  split_ifs <;> simp_all

theorem touchedRecord_last_status_of_none (e : AppliedJobRecord)
    (p : JobPosting) (now : DateTime) :
    (touchedRecord e p none now).last_status = e.last_status := by
  simp only [touchedRecord, AppliedJobRecord.touch, truthy]
  split_ifs <;> simp_all

/-- Serialised form of the registry (AppliedJobRegistry.to_snapshot). -/
structure RegistrySnapshot where
  records : List RecordDict
  aliases : Dict String
deriving Repr, DecidableEq

/-- AppliedJobRegistry.to_snapshot. -/
def AppliedJobRegistry.to_snapshot (r : AppliedJobRegistry) : RegistrySnapshot :=
  { records := (dictValues r.records).map AppliedJobRecord.to_dict
    aliases := r.aliases }

/-- AppliedJobRegistry.from_snapshot: a falsy payload yields an empty
registry; otherwise records are rebuilt keyed by each entry's `key` field
(every typed entry carries one), and aliases are kept only when their target
is a rebuilt record. -/
def AppliedJobRegistry.from_snapshot (payload : Option RegistrySnapshot) :
    AppliedJobRegistry :=
  match payload with
  | none => ⟨[], []⟩
  | some p =>
    let records := p.records.foldl
      (fun d e => dictSet d e.key (AppliedJobRecord.from_dict e)) []
    let aliases := p.aliases.filter (fun kv => dictMem records kv.2)
    ⟨records, aliases⟩

/-- application_queue.QueuedApplication. -/
structure QueuedApplication where
  posting : JobPosting
  apply_at : DateTime
  status : String := "pending"
  resume_path : Option String := none
  cover_letter_path : Option String := none
  resume_template : String := "traditional"
  cover_letter_template : String := "traditional"
  custom_resume_template : Option String := none
  custom_cover_letter_template : Option String := none
  notes : List String := []
  attempts : Int := 0
  last_error : Option String := none
  outcome : Option String := none
  outcome_recorded_at : Option DateTime := none
deriving Repr, DecidableEq

/-- QueuedApplication.job_id: the posting id when truthy, else
`"{title}@{company}"`. -/
def QueuedApplication.job_id (t : QueuedApplication) : String :=
  match t.posting.id with
  | some i => if i ≠ "" then i else t.posting.title ++ "@" ++ t.posting.company
  | none => t.posting.title ++ "@" ++ t.posting.company

/-- QueuedApplication.mark_success. -/
def QueuedApplication.mark_success (t : QueuedApplication) (now : DateTime) :
    QueuedApplication :=
  { t with
    status := "applied"
    attempts := t.attempts + 1
    last_error := none
    notes := t.notes ++ ["Applied successfully on " ++ isoSeconds now]
    outcome := some "applied"
    outcome_recorded_at := some now }

/-- QueuedApplication.mark_failure. -/
def QueuedApplication.mark_failure (t : QueuedApplication) (error : String)
    (now : DateTime) : QueuedApplication :=
  { t with
    status := "pending"
    attempts := t.attempts + 1
    last_error := some error
    notes := t.notes ++ ["Attempt failed on " ++ isoSeconds now ++ ": " ++ error] }

/-- QueuedApplication.defer. -/
def QueuedApplication.defer (t : QueuedApplication) (newTime : DateTime) :
    QueuedApplication :=
  { t with apply_at := newTime }

/-- QueuedApplication.record_outcome. -/
def QueuedApplication.record_outcome (t : QueuedApplication) (outcome : String)
    (note : Option String) (now : DateTime) : QueuedApplication :=
  let outcomeNormalised := pyLower (pyStrip outcome)
  let baseNote := "Outcome recorded (" ++ outcomeNormalised ++ ") on "
    ++ isoSeconds now ++ "."
  let extra : List String :=
    match note with
    | some n => if pyStrip n ≠ "" then [pyStrip n] else []
    | none => []
  { t with
    outcome := some outcomeNormalised
    outcome_recorded_at := some now
    status := outcomeNormalised
    notes := t.notes ++ [baseNote] ++ extra }

/-- Serialised form of the posting inside a queue entry
(the `posting` sub-dictionary of QueuedApplication.to_dict). -/
structure PostingDict where
  id : Option String
  title : String
  company : String
  location : Option String
  salary_text : Option String
  description : String
  tags : List String
  felon_friendly : Option Bool
  apply_url : Option String
  contact_email : Option String
deriving Repr, DecidableEq

/-- Serialised form of a queue entry (QueuedApplication.to_dict). -/
structure TaskDict where
  posting : PostingDict
  apply_at : DateTime
  status : String
  resume_path : Option String
  cover_letter_path : Option String
  resume_template : String
  cover_letter_template : String
  custom_resume_template : Option String
  custom_cover_letter_template : Option String
  notes : List String
  attempts : Int
  last_error : Option String
  outcome : Option String
  outcome_recorded_at : Option DateTime
deriving Repr, DecidableEq

/-- QueuedApplication.to_dict. -/
def QueuedApplication.to_dict (t : QueuedApplication) : TaskDict :=
  { posting :=
    { id := t.posting.id
      title := t.posting.title
      company := t.posting.company
      location := t.posting.location
      salary_text := t.posting.salary_text
      description := t.posting.description
      tags := t.posting.tags
      felon_friendly := t.posting.felon_friendly
      apply_url := t.posting.apply_url
      contact_email := t.posting.contact_email }
    apply_at := isoformat t.apply_at
    status := t.status
    resume_path := t.resume_path
    cover_letter_path := t.cover_letter_path
    resume_template := t.resume_template
    cover_letter_template := t.cover_letter_template
    custom_resume_template := t.custom_resume_template
    custom_cover_letter_template := t.custom_cover_letter_template
    notes := t.notes
    attempts := t.attempts
    last_error := t.last_error
    outcome := t.outcome
    outcome_recorded_at := t.outcome_recorded_at.map isoformat }

/-- QueuedApplication.from_dict. -/
def QueuedApplication.from_dict (payload : TaskDict) : QueuedApplication :=
  { posting :=
    { title := payload.posting.title
      company := payload.posting.company
      id := payload.posting.id
      location := payload.posting.location
      salary_text := payload.posting.salary_text
      description := payload.posting.description
      tags := payload.posting.tags
      felon_friendly := payload.posting.felon_friendly
      apply_url := payload.posting.apply_url
      contact_email := payload.posting.contact_email }
    apply_at := fromisoformat payload.apply_at
    status := payload.status
    resume_path := payload.resume_path
    cover_letter_path := payload.cover_letter_path
    resume_template := payload.resume_template
    cover_letter_template := payload.cover_letter_template
    custom_resume_template := payload.custom_resume_template
    custom_cover_letter_template := payload.custom_cover_letter_template
    notes := payload.notes
    attempts := payload.attempts
    last_error := payload.last_error
    outcome := payload.outcome
    outcome_recorded_at := payload.outcome_recorded_at.map fromisoformat }

theorem taskDict_roundtrip (t : QueuedApplication) :
    QueuedApplication.from_dict t.to_dict = t := by
  cases t with
  | mk posting apply_at status rp cp rt ct crt cct notes attempts le oc ocat =>
    cases ocat <;> rfl

/-- application_queue.ApplicationQueue. -/
structure ApplicationQueue where
  items : List QueuedApplication := []
deriving Repr, DecidableEq

/-- ApplicationQueue.get: first entry with the given job id. -/
def ApplicationQueue.get (q : ApplicationQueue) (jobId : String) :
    Option QueuedApplication :=
  q.items.find? (fun a => a.job_id == jobId)

/-- ApplicationQueue.add: replace an existing entry with the same job id,
carrying over its accumulated notes, attempts and last_error; otherwise
append. -/
def ApplicationQueue.add (q : ApplicationQueue) (t : QueuedApplication) :
    ApplicationQueue :=
  match q.get t.job_id with
  | some existing =>
    ⟨q.items.filter (fun a => a.job_id != t.job_id) ++
      [{ t with
          notes := existing.notes ++ t.notes
          attempts := existing.attempts
          last_error := existing.last_error }]⟩
  | none => ⟨q.items ++ [t]⟩

/-- ApplicationQueue.due: pending entries whose apply_at has passed, stably
sorted ascending by apply_at. -/
def ApplicationQueue.due (q : ApplicationQueue) (when : DateTime) :
    List QueuedApplication :=
  stableSortBy (fun a b => a.apply_at < b.apply_at)
    (q.items.filter (fun a => a.status == "pending" && a.apply_at ≤ when))

/-- ApplicationQueue.pending. -/
def ApplicationQueue.pending (q : ApplicationQueue) : List QueuedApplication :=
  q.items.filter (fun a => a.status == "pending")

/-- Number of queue entries carrying a given job id. -/
def countJob (q : ApplicationQueue) (j : String) : Nat :=
  q.items.countP (fun a => a.job_id == j)

theorem mem_due_iff (q : ApplicationQueue) (whenT : DateTime)
    (t : QueuedApplication) :
    t ∈ q.due whenT ↔ t ∈ q.items ∧ t.status = "pending" ∧ t.apply_at ≤ whenT := by
  unfold ApplicationQueue.due
  rw [mem_stableSortBy]
  simp [List.mem_filter, Bool.and_eq_true, beq_iff_eq, decide_eq_true_eq,
    and_assoc]

/-- ApplicationQueue.to_snapshot. -/
def ApplicationQueue.to_snapshot (q : ApplicationQueue) : List TaskDict :=
  q.items.map QueuedApplication.to_dict

/-- ApplicationQueue.from_snapshot.  The source wraps each entry's
from_dict in try/except and substitutes a placeholder task on failure; for
well-typed entry dictionaries from_dict is total, so the defensive branch
is unreachable in this model. -/
def ApplicationQueue.from_snapshot (payload : List TaskDict) :
    ApplicationQueue :=
  ⟨payload.map QueuedApplication.from_dict⟩

/-- Modelled from the spec: `ApplicationQueue.find_matching` is called from
cli.py and streamlit_app.py but its definition is missing from
application_queue.py in src.  Per §4.3 it reuses the Fingerprint Engine
keys (§4.1) to find a queued task whose posting is the same job: same
normalised apply URL key, or same role-combo (title, company) key. -/
def ApplicationQueue.find_matching (q : ApplicationQueue) (p : JobPosting) :
    Option QueuedApplication :=
  q.items.find? (fun t =>
    (match normaliseUrl t.posting.apply_url, normaliseUrl p.apply_url with
     | some a, some b => a == b
     | _, _ => false) ||
    (match comboKey (some t.posting.title) (some t.posting.company),
           comboKey (some p.title) (some p.company) with
     | some a, some b => a == b
     | _, _ => false))

/-- skills_inventory.SkillRecord. -/
structure SkillRecord where
  name : String
  occurrences : Int := 0
  interviews : Int := 0
  offers : Int := 0
  notes : List String := []
deriving Repr, DecidableEq

/-- skills_inventory.SkillsInventory: the private dict of skill records,
keyed by lower-cased stripped name. -/
structure SkillsInventory where
  skills : Dict SkillRecord := []
deriving Repr, DecidableEq

/-- Serialised form of a skill record (one value of
SkillsInventory.to_snapshot). -/
structure SkillRecordDict where
  name : String
  occurrences : Int
  interviews : Int
  offers : Int
  notes : List String
deriving Repr, DecidableEq

/-- SkillsInventory.to_snapshot. -/
def SkillsInventory.to_snapshot (inv : SkillsInventory) : Dict SkillRecordDict :=
  inv.skills.map (fun kv =>
    (kv.1,
      { name := kv.2.name
        occurrences := kv.2.occurrences
        interviews := kv.2.interviews
        offers := kv.2.offers
        notes := kv.2.notes }))

/-- SkillsInventory.from_snapshot. -/
def SkillsInventory.from_snapshot (snapshot : Dict SkillRecordDict) :
    SkillsInventory :=
  ⟨snapshot.map (fun kv =>
    (kv.1,
      { name := kv.2.name
        occurrences := kv.2.occurrences
        interviews := kv.2.interviews
        offers := kv.2.offers
        notes := kv.2.notes }))⟩

/-- The opportunity gap of a skill record. -/
def skillGap (r : SkillRecord) : Int :=
  r.occurrences - r.interviews - r.offers

/-- Strict comparison of the sort keys of SkillsInventory.sorted_by_opportunity:
tuple comparison of `(-(occurrences - interviews - offers), -occurrences,
name.lower())`, written with the negations resolved (so descending gap, then
descending occurrences, then ascending lower-cased name). -/
def skillLt (a b : SkillRecord) : Bool :=
  (skillGap b < skillGap a) ||
  (skillGap a == skillGap b &&
    ((b.occurrences < a.occurrences) ||
     (a.occurrences == b.occurrences && pyStrLt (pyLower a.name) (pyLower b.name))))

/-- SkillsInventory.sorted_by_opportunity. -/
def SkillsInventory.sorted_by_opportunity (inv : SkillsInventory) :
    List SkillRecord :=
  stableSortBy skillLt (dictValues inv.skills)

theorem skillLt_asymm (a b : SkillRecord) (h : skillLt a b = true) :
    skillLt b a = false := by
  simp only [skillLt, Bool.or_eq_true, Bool.and_eq_true, beq_iff_eq,
    decide_eq_true_eq] at h
  rw [← Bool.not_eq_true]
  simp only [skillLt, Bool.or_eq_true, Bool.and_eq_true, beq_iff_eq,
    decide_eq_true_eq]
  intro hcon
  rcases h with h | ⟨hg, h⟩ <;> rcases hcon with hc | ⟨hgc, hc⟩
  · omega
  · omega
  · omega
  · rcases h with h | ⟨ho, h⟩ <;> rcases hc with hc | ⟨hoc, hc⟩
    · omega
    · omega
    · omega
    · have h2 := strLtList_asymm _ _ h
      simp only [pyStrLt] at hc
      simp only [pyStrLt] at h2
      rw [h2] at hc
      exact Bool.false_ne_true hc

theorem skillLt_negtrans (a b c : SkillRecord) (h1 : skillLt b a = false)
    (h2 : skillLt c b = false) : skillLt c a = false := by
  rw [← Bool.not_eq_true] at h1 h2 ⊢
  simp only [skillLt, Bool.or_eq_true, Bool.and_eq_true, beq_iff_eq,
    decide_eq_true_eq] at h1 h2 ⊢
  push_neg at h1 h2 ⊢
  obtain ⟨h1g, h1r⟩ := h1
  obtain ⟨h2g, h2r⟩ := h2
  refine ⟨by omega, ?_⟩
  intro hgca
  have hgba : skillGap b = skillGap a := by omega
  have hgcb : skillGap c = skillGap b := by omega
  obtain ⟨h1o, h1s⟩ := h1r hgba
  obtain ⟨h2o, h2s⟩ := h2r hgcb
  refine ⟨by omega, ?_⟩
  intro hoca
  have hoba : b.occurrences = a.occurrences := by omega
  have hocb : c.occurrences = b.occurrences := by omega
  have hs1 : pyStrLt (pyLower b.name) (pyLower a.name) = false :=
    Bool.eq_false_iff.mpr (h1s hoba)
  have hs2 : pyStrLt (pyLower c.name) (pyLower b.name) = false :=
    Bool.eq_false_iff.mpr (h2s hocb)
  intro hcon
  simp only [pyStrLt] at hs1 hs2 hcon
  rw [strLtList_negtrans _ _ _ hs1 hs2] at hcon
  exact Bool.false_ne_true hcon

/-- profile.JobPreference. -/
structure JobPreference where
  min_salary : Option Int := none
  locations : List String := []
  focus_domains : List String := []
  felon_friendly_only : Bool := false
deriving Repr, DecidableEq

/-- profile.Experience. -/
structure Experience where
  company : String
  role : String
  start_date : DateTime
  end_date : Option DateTime := none
  achievements : List String := []
deriving Repr, DecidableEq

/-- profile.CandidateProfile. -/
structure CandidateProfile where
  name : String
  email : String
  phone : Option String := none
  summary : Option String := none
  skills : List String := []
  certifications : List String := []
  experiences : List Experience := []
  job_preferences : JobPreference := {}
  additional_notes : Dict String := []
deriving Repr, DecidableEq

/-- Serialised form of an experience inside CandidateProfile.to_dict. -/
structure ExperienceDict where
  company : String
  role : String
  start_date : DateTime
  end_date : Option DateTime
  achievements : List String
deriving Repr, DecidableEq

/-- Serialised form of a profile (CandidateProfile.to_dict; the
job_preferences sub-dictionary mirrors JobPreference.to_dict). -/
structure ProfileDict where
  name : String
  email : String
  phone : Option String
  summary : Option String
  skills : List String
  certifications : List String
  experiences : List ExperienceDict
  job_preferences : JobPreference
  additional_notes : Dict String
deriving Repr, DecidableEq

/-- CandidateProfile.to_dict. -/
def CandidateProfile.to_dict (p : CandidateProfile) : ProfileDict :=
  { name := p.name
    email := p.email
    phone := p.phone
    summary := p.summary
    skills := p.skills
    certifications := p.certifications
    experiences := p.experiences.map (fun e =>
      { company := e.company
        role := e.role
        start_date := isoformat e.start_date
        end_date := e.end_date.map isoformat
        achievements := e.achievements })
    job_preferences := p.job_preferences
    additional_notes := p.additional_notes }

/-- CandidateProfile.from_dict. -/
def CandidateProfile.from_dict (data : ProfileDict) : CandidateProfile :=
  { name := data.name
    email := data.email
    phone := data.phone
    summary := data.summary
    skills := data.skills
    certifications := data.certifications
    experiences := data.experiences.map (fun e =>
      { company := e.company
        role := e.role
        start_date := fromisoformat e.start_date
        end_date := e.end_date.map fromisoformat
        achievements := e.achievements })
    job_preferences := data.job_preferences
    additional_notes := data.additional_notes }

/-- The on-disk JSON document written by Storage.save (storage.py): one
top-level key per component.  `none` in a field models an absent key or a
JSON null; Storage.save always writes all four keys. -/
structure Store where
  profile : Option ProfileDict
  skills : Option (Dict SkillRecordDict)
  queue : Option (List TaskDict)
  history : Option RegistrySnapshot
deriving Repr, DecidableEq

/-- Storage.save: serialise the full combined state into one store
document (the JSON file write itself is outside the model). -/
def Storage.save (profile : CandidateProfile) (skills : SkillsInventory)
    (queue : ApplicationQueue) (history : AppliedJobRegistry) : Store :=
  { profile := some profile.to_dict
    skills := some skills.to_snapshot
    queue := some queue.to_snapshot
    history := some history.to_snapshot }

/-- The state of the store file as Storage.load sees it: `none` when
`self.path.exists()` is false; `some none` when the file exists but
`json.loads` fails (a corrupt file); `some (some data)` when it parses. -/
abbrev StoreFile := Option (Option Store)

/-- Storage.load.  A missing file yields the empty state; a file that does
not parse propagates the `json.loads` exception (modelled by `Except.error`);
otherwise each component is rebuilt from its top-level key.  Python dict
truthiness governs profile/skills: a ProfileDict structure models a
non-empty dict (CandidateProfile.to_dict always emits its keys), while an
empty skills snapshot is falsy and loads as `none`. -/
def Storage.load (file : StoreFile) :
    Except String
      (Option CandidateProfile × Option SkillsInventory ×
        ApplicationQueue × AppliedJobRegistry) :=
  match file with
  | none => .ok (none, none, ⟨[]⟩, ⟨[], []⟩)
  | some none => .error "json.JSONDecodeError"
  | some (some data) =>
    let profile :=
      match data.profile with
      | some pd => some (CandidateProfile.from_dict pd)
      | none => none
    let skills :=
      match data.skills with
      | some sd => if sd = [] then none else some (SkillsInventory.from_snapshot sd)
      | none => none
    let queue :=
      match data.queue with
      | some qd => ApplicationQueue.from_snapshot qd
      | none => (⟨[]⟩ : ApplicationQueue)
    let history := AppliedJobRegistry.from_snapshot data.history
    .ok (profile, skills, queue, history)

/-! Claim theorems. -/

/-- Sample posting used to instantiate hypothesis-carrying theorems. -/
def samplePosting : JobPosting :=
  { title := "Engineer", company := "Acme", id := some "j1" }

/-- Sample queued task used to instantiate hypothesis-carrying theorems. -/
def sampleTask : QueuedApplication :=
  { posting := samplePosting, apply_at := 3 }

/-- C7: after `record_outcome("rejected")` the task's status equals
`"rejected"` and the task appears in no `due(when)` result of any queue,
regardless of its `apply_at`, until it is manually reset. -/
theorem C7_rejected_outcome_freezes_due (t : QueuedApplication)
    (note : Option String) (now : DateTime) (q : ApplicationQueue)
    (whenT : DateTime) :
    (t.record_outcome "rejected" note now).status = "rejected" ∧
    t.record_outcome "rejected" note now ∉ q.due whenT := by
  have hst : (t.record_outcome "rejected" note now).status = "rejected" := by
    show pyLower (pyStrip "rejected") = "rejected"
    decide
  refine ⟨hst, ?_⟩
  intro hmem
  rw [mem_due_iff] at hmem
  have h2 := hmem.2.1
  rw [hst] at h2
  exact absurd h2 (by decide)

/-- C10: an outcome string whose trimmed lower-case form is `"pending"`
sets the task's status to `"pending"`, so the task stays eligible for
`due()` once its `apply_at` has passed. -/
theorem C10_pending_outcome_keeps_due (t : QueuedApplication) (s : String)
    (note : Option String) (now : DateTime) (q : ApplicationQueue)
    (whenT : DateTime) (hs : pyLower (pyStrip s) = "pending")
    (hmem : t.record_outcome s note now ∈ q.items)
    (hwhen : (t.record_outcome s note now).apply_at ≤ whenT) :
    (t.record_outcome s note now).status = "pending" ∧
    t.record_outcome s note now ∈ q.due whenT := by
  have hst : (t.record_outcome s note now).status = pyLower (pyStrip s) := rfl
  rw [hs] at hst
  exact ⟨hst, (mem_due_iff q whenT _).mpr ⟨hmem, hst, hwhen⟩⟩

/-- Witness for C10 at a concrete task: `record_outcome("Pending")` leaves
the task pending and due once its apply_at (3) is before now (9). -/
theorem C10_witness :
    pyLower (pyStrip "Pending") = "pending" ∧
    ((sampleTask.record_outcome "Pending" none 5).status = "pending" ∧
      sampleTask.record_outcome "Pending" none 5 ∈
        (ApplicationQueue.mk [sampleTask.record_outcome "Pending" none 5]).due 9) :=
  ⟨by decide,
    C10_pending_outcome_keeps_due sampleTask "Pending" none 5
      ⟨[sampleTask.record_outcome "Pending" none 5]⟩ 9 (by decide)
      (List.mem_singleton.mpr rfl) (by decide)⟩

/-- C5: adding two tasks with the same job id leaves exactly one entry for
that id; its notes are the pre-replace entry's notes followed by the new
task's notes, and its attempts and last_error are the pre-replace entry's
values. -/
theorem job_id_of_merge (t : QueuedApplication) (ns : List String)
    (att : Int) (le : Option String) :
    ({ t with notes := ns, attempts := att, last_error := le } :
      QueuedApplication).job_id = t.job_id := rfl

theorem C5_add_replaces_not_duplicates (q : ApplicationQueue)
    (t1 t2 e1 : QueuedApplication) (_hsame : t1.job_id = t2.job_id)
    (hget : (q.add t1).get t2.job_id = some e1) :
    countJob ((q.add t1).add t2) t2.job_id = 1 ∧
    ((q.add t1).add t2).get t2.job_id =
      some { t2 with notes := e1.notes ++ t2.notes, attempts := e1.attempts,
                     last_error := e1.last_error } := by
  obtain ⟨q1, hq1⟩ : ∃ q1, q.add t1 = q1 := ⟨_, rfl⟩
  rw [hq1] at hget ⊢
  have hfilter : ∀ a ∈ q1.items.filter (fun a => a.job_id != t2.job_id),
      ¬ (a.job_id == t2.job_id) = true := by
    intro a ha
    have h2 := (List.mem_filter.mp ha).2
    simp only [bne_iff_ne, ne_eq] at h2
    simp only [beq_iff_eq]
    exact h2
  have hbeq : ∀ x : QueuedApplication, x.job_id = t2.job_id →
      (x.job_id == t2.job_id) = true := by
    intro x h
    rw [h]
    exact beq_self_eq_true _
  constructor
  · unfold ApplicationQueue.add
    simp only [hget]
    unfold countJob
    simp only [List.countP_append]
    rw [List.countP_eq_zero.mpr hfilter]
    rw [List.countP_singleton]
    rw [job_id_of_merge]
    simp
  · unfold ApplicationQueue.add
    simp only [hget]
    unfold ApplicationQueue.get
    rw [List.find?_append]
    rw [List.find?_eq_none.mpr hfilter]
    simp only [Option.none_or]
    exact List.find?_cons_of_pos _
      (hbeq { t2 with notes := e1.notes ++ t2.notes, attempts := e1.attempts,
                      last_error := e1.last_error } (job_id_of_merge t2 _ _ _))

/-- Witness for C5 at concrete tasks: queuing the same job twice from an
empty queue leaves one entry with merged notes and task1's counters. -/
theorem C5_witness :
    sampleTask.job_id = ({ sampleTask with notes := ["n2"] } :
      QueuedApplication).job_id ∧
    countJob ((ApplicationQueue.mk []).add sampleTask |>.add
      { sampleTask with notes := ["n2"] }) ({ sampleTask with notes := ["n2"] } :
        QueuedApplication).job_id = 1 ∧
    (((ApplicationQueue.mk []).add sampleTask |>.add
      { sampleTask with notes := ["n2"] }).get
        ({ sampleTask with notes := ["n2"] } : QueuedApplication).job_id) =
      some { ({ sampleTask with notes := ["n2"] } : QueuedApplication) with
              notes := sampleTask.notes ++ ["n2"]
              attempts := sampleTask.attempts
              last_error := sampleTask.last_error } :=
  ⟨rfl,
    C5_add_replaces_not_duplicates ⟨[]⟩ sampleTask
      { sampleTask with notes := ["n2"] } sampleTask rfl (by decide)⟩

/-- A well-formed serialised queue entry, used to exercise from_snapshot. -/
def sampleTaskDict : TaskDict :=
  { posting :=
    { id := some "j1"
      title := "Engineer"
      company := "Acme"
      location := none
      salary_text := none
      description := ""
      tags := []
      felon_friendly := none
      apply_url := none
      contact_email := none }
    apply_at := 3
    status := "pending"
    resume_path := none
    cover_letter_path := none
    resume_template := "traditional"
    cover_letter_template := "traditional"
    custom_resume_template := none
    custom_cover_letter_template := none
    notes := []
    attempts := 0
    last_error := none
    outcome := none
    outcome_recorded_at := none }

/-- C6 counterexample: from_snapshot does not deduplicate, so a snapshot
payload holding the same entry twice loads into a queue with two entries
for job id "j1" — the at-most-one-entry-per-job_id invariant fails for a
queue reachable through from_snapshot. -/
theorem C6_counterexample :
    countJob (ApplicationQueue.from_snapshot [sampleTaskDict, sampleTaskDict])
      "j1" = 2 := by decide

theorem countJob_add_le (q : ApplicationQueue) (t : QueuedApplication)
    (j : String) (h : countJob q j ≤ 1) : countJob (q.add t) j ≤ 1 := by
  unfold ApplicationQueue.add
  cases hget : q.get t.job_id with
  | some ex =>
    simp only [hget]
    unfold countJob
    simp only [List.countP_append]
    by_cases hj : t.job_id = j
    · subst hj
      have hz : (q.items.filter (fun a => a.job_id != t.job_id)).countP
          (fun a => a.job_id == t.job_id) = 0 := by
        rw [List.countP_eq_zero]
        intro a ha
        have h2 := (List.mem_filter.mp ha).2
        simp only [bne_iff_ne, ne_eq] at h2
        simp only [beq_iff_eq]
        exact h2
      rw [hz, List.countP_singleton, job_id_of_merge]
      split <;> omega
    · have hf : (q.items.filter (fun a => a.job_id != t.job_id)).countP
          (fun a => a.job_id == j) ≤ q.items.countP (fun a => a.job_id == j) := by
        rw [List.countP_filter]
        refine List.countP_mono_left ?_
        intro a _ hpa
        exact ((Bool.and_eq_true _ _).mp hpa).1
      rw [List.countP_singleton, job_id_of_merge]
      rw [if_neg (by simp only [beq_iff_eq]; exact hj)]
      unfold countJob at h
      omega
  | none =>
    simp only [hget]
    unfold countJob
    simp only [List.countP_append]
    unfold ApplicationQueue.get at hget
    by_cases hj : t.job_id = j
    · subst hj
      have h0 : q.items.countP (fun a => a.job_id == t.job_id) = 0 := by
        rw [List.countP_eq_zero]
        intro a ha
        exact List.find?_eq_none.mp hget a ha
      rw [h0, List.countP_singleton]
      split <;> omega
    · have hs : ([t]).countP (fun a => a.job_id == j) = 0 := by
        rw [List.countP_singleton, if_neg]
        simp only [beq_iff_eq]
        exact hj
      rw [hs]
      unfold countJob at h
      omega

/-- C6 (amended): every queue reachable from the empty queue through `add`
has at most one entry per job_id; `from_snapshot` does not deduplicate, so
a snapshot payload with duplicate job ids loads with duplicates (see the
counterexample). -/
theorem C6_add_reachable_at_most_one (ts : List QueuedApplication)
    (j : String) : countJob (ts.foldl ApplicationQueue.add ⟨[]⟩) j ≤ 1 := by
  have main : ∀ (us : List QueuedApplication) (q : ApplicationQueue),
      (∀ i, countJob q i ≤ 1) → ∀ i, countJob (us.foldl ApplicationQueue.add q) i ≤ 1 := by
    intro us
    induction us with
    | nil => intro q hq i; exact hq i
    | cons t us ih =>
      intro q hq i
      exact ih (q.add t) (fun i2 => countJob_add_le q t i2 (hq i2)) i
  refine main ts ⟨[]⟩ ?_ j
  intro i
  simp [countJob]

/-- Skill record fixtures for the ranking claims. -/
def skillRecA : SkillRecord := { name := "a", occurrences := 1 }

/-- Second skill record fixture: same gap and occurrences as `skillRecA`,
upper-case name. -/
def skillRecB : SkillRecord := { name := "B", occurrences := 1 }

/-- C9 counterexample: two records tied on gap and occurrences with names
"a" and "B".  Ascending raw name would list "B" (code point 66) before "a"
(code point 97), but sorted_by_opportunity breaks the tie on the
lower-cased name and returns "a" first. -/
theorem C9_counterexample :
    SkillsInventory.sorted_by_opportunity ⟨[("a", skillRecA), ("b", skillRecB)]⟩ =
      [skillRecA, skillRecB] ∧
    skillGap skillRecA = skillGap skillRecB ∧
    skillRecA.occurrences = skillRecB.occurrences ∧
    pyStrLt skillRecB.name skillRecA.name = true := by decide

/-- C9 (amended): sorted_by_opportunity returns a permutation of the
records ordered by descending (occurrences - interviews - offers), ties
broken by descending occurrences and then ascending lower-cased name (the
comparison `skillLt`); in particular a skill with occurrences=10,
interviews=0, offers=0 ranks before one with occurrences=5, interviews=5,
offers=0. -/
theorem C9_sorted_by_opportunity_order (inv : SkillsInventory) :
    (inv.sorted_by_opportunity).Perm (dictValues inv.skills) ∧
    (inv.sorted_by_opportunity).Pairwise (fun a b => skillLt b a = false) ∧
    SkillsInventory.sorted_by_opportunity
        ⟨[("sql", { name := "SQL", occurrences := 5, interviews := 5 }),
          ("python", { name := "Python", occurrences := 10 })]⟩ =
      [{ name := "Python", occurrences := 10 },
       { name := "SQL", occurrences := 5, interviews := 5 }] :=
  ⟨stableSortBy_perm _ _,
    sorted_stableSortBy _ skillLt_asymm skillLt_negtrans _,
    by decide⟩

theorem sharesKeys_iff (t : QueuedApplication) (p : JobPosting) :
    ((match normaliseUrl t.posting.apply_url, normaliseUrl p.apply_url with
      | some a, some b => a == b
      | _, _ => false) ||
     (match comboKey (some t.posting.title) (some t.posting.company),
            comboKey (some p.title) (some p.company) with
      | some a, some b => a == b
      | _, _ => false)) = true ↔
    ((∃ k, normaliseUrl t.posting.apply_url = some k ∧
           normaliseUrl p.apply_url = some k) ∨
     (∃ c, comboKey (some t.posting.title) (some t.posting.company) = some c ∧
           comboKey (some p.title) (some p.company) = some c)) := by
  cases hu1 : normaliseUrl t.posting.apply_url <;>
    cases hu2 : normaliseUrl p.apply_url <;>
      cases hc1 : comboKey (some t.posting.title) (some t.posting.company) <;>
        cases hc2 : comboKey (some p.title) (some p.company) <;>
          simp [beq_iff_eq]
  all_goals constructor <;> intro h
  all_goals first
    | exact h.symm
    | (rcases h with h | h
       · exact Or.inl h.symm
       · exact Or.inr h.symm)

/-- C3 (spec-modelled `find_matching`): the lookup returns a queued task
exactly when some queued task's posting shares the given posting's
normalised apply-URL key or its normalised (title, company) role-combo key
— the Registry's fingerprint keys — and whatever it returns is one of the
queued tasks. -/
theorem C3_find_matching_uses_fingerprints (q : ApplicationQueue)
    (p : JobPosting) :
    ((q.find_matching p).isSome = true ↔
      ∃ t, t ∈ q.items ∧
        ((∃ k, normaliseUrl t.posting.apply_url = some k ∧
               normaliseUrl p.apply_url = some k) ∨
         (∃ c, comboKey (some t.posting.title) (some t.posting.company) = some c ∧
               comboKey (some p.title) (some p.company) = some c))) ∧
    ∀ t, q.find_matching p = some t → t ∈ q.items := by
  constructor
  · unfold ApplicationQueue.find_matching
    rw [List.find?_isSome]
    constructor
    · rintro ⟨t, ht, hp⟩
      exact ⟨t, ht, (sharesKeys_iff t p).mp hp⟩
    · rintro ⟨t, ht, hp⟩
      exact ⟨t, ht, (sharesKeys_iff t p).mpr hp⟩
  · intro t ht
    exact List.mem_of_find?_eq_some ht

/-- C8 counterexample: a store file that exists but does not parse makes
Storage.load propagate the json.loads error — it is not treated as empty
state and the empty-state result is not returned. -/
theorem C8_counterexample :
    Storage.load (some none) = Except.error "json.JSONDecodeError" ∧
    Storage.load (some none) ≠
      Except.ok (none, none, (⟨[]⟩ : ApplicationQueue),
        (⟨[], []⟩ : AppliedJobRegistry)) :=
  ⟨rfl, fun h => Except.noConfusion h⟩

/-- C8 (amended): a missing store file loads as the empty state — `none`
profile and inventory, empty-but-valid queue and registry — without
raising; a corrupt (unparsable) store file instead propagates the JSON
parse error. -/
theorem C8_load_missing_is_empty_corrupt_raises :
    Storage.load none =
      Except.ok (none, none, (⟨[]⟩ : ApplicationQueue),
        (⟨[], []⟩ : AppliedJobRegistry)) ∧
    Storage.load (some none) = Except.error "json.JSONDecodeError" :=
  ⟨rfl, rfl⟩

theorem findSome?_head {α β : Type} (f : α → Option β) (ks : List α)
    (k0 : α) (krest : List α) (hks : ks = k0 :: krest) (b : β)
    (hf : f k0 = some b) : ks.findSome? f = some b := by
  subst hks
  simp only [List.findSome?_cons, hf]

theorem record_of_findExisting_none (r : AppliedJobRegistry) (p : JobPosting)
    (status : Option String) (now : DateTime)
    (h : r.findExisting (keysFor p) = none) :
    r.record p status now =
      (⟨dictSet r.records ((keysFor p).headD "")
          ⟨(keysFor p).headD "", p.title, p.company, p.apply_url, now, now,
            status, 1⟩,
        aliasAll r.aliases (keysFor p) ((keysFor p).headD "")⟩,
       ⟨(keysFor p).headD "", p.title, p.company, p.apply_url, now, now,
         status, 1⟩) := by
  unfold AppliedJobRegistry.record
  simp only [h]

theorem record_of_findExisting_some (r : AppliedJobRegistry) (p : JobPosting)
    (status : Option String) (now : DateTime) (target : String)
    (existing : AppliedJobRecord)
    (h : r.findExisting (keysFor p) = some (target, existing)) :
    r.record p status now =
      (⟨dictSet r.records target (touchedRecord existing p status now),
        aliasAll r.aliases (keysFor p) existing.key⟩,
       touchedRecord existing p status now) := by
  unfold AppliedJobRegistry.record
  simp only [h]

/-- C1: recording the same posting twice on a fresh registry yields exactly
one record whose occurrences is 2 (not two records), and a third record
call with a different (non-empty) status updates that same record's
last_status without creating a new record. -/
theorem C1_record_twice_one_record (p : JobPosting) (s : String)
    (hs : s ≠ "") (now1 now2 now3 : DateTime) :
    ((((⟨[], []⟩ : AppliedJobRegistry).record p none now1).1.record p none
        now2).1.records.length = 1) ∧
    ((((⟨[], []⟩ : AppliedJobRegistry).record p none now1).1.record p none
        now2).2.occurrences = 2) ∧
    (((((⟨[], []⟩ : AppliedJobRegistry).record p none now1).1.record p none
        now2).1.record p (some s) now3).1.records.length = 1) ∧
    (((((⟨[], []⟩ : AppliedJobRegistry).record p none now1).1.record p none
        now2).1.record p (some s) now3).2.last_status = some s) ∧
    (((((⟨[], []⟩ : AppliedJobRegistry).record p none now1).1.record p none
        now2).1.record p (some s) now3).2.key =
      (((⟨[], []⟩ : AppliedJobRegistry).record p none now1).1.record p none
        now2).2.key) := by
  obtain ⟨k0, krest, hkeys⟩ : ∃ k0 krest, keysFor p = k0 :: krest := by
    cases h : keysFor p with
    | nil => exact absurd h (keysFor_ne_nil p)
    | cons a l => exact ⟨a, l, rfl⟩
  have hk0mem : k0 ∈ keysFor p := by
    rw [hkeys]; exact List.mem_cons_self k0 krest
  have hk0ne : k0 ≠ "" := keysFor_ne_empty p k0 hk0mem
  have hh : (keysFor p).headD "" = k0 := by rw [hkeys]; rfl
  -- first call: fresh registry, no existing record
  have hfe1 : (⟨[], []⟩ : AppliedJobRegistry).findExisting (keysFor p) = none := by
    unfold AppliedJobRegistry.findExisting
    rw [List.findSome?_eq_none_iff]
    intro a _
    rfl
  have hR1 : (⟨[], []⟩ : AppliedJobRegistry).record p none now1 =
      (⟨[(k0, ⟨k0, p.title, p.company, p.apply_url, now1, now1, none, 1⟩)],
        aliasAll [] (keysFor p) k0⟩,
       ⟨k0, p.title, p.company, p.apply_url, now1, now1, none, 1⟩) := by
    rw [record_of_findExisting_none _ _ _ _ hfe1, hh]
    rfl
  -- the registry after the first call, and its lookup behaviour
  have hlk1 : (⟨[(k0, ⟨k0, p.title, p.company, p.apply_url, now1, now1, none,
      1⟩)], aliasAll [] (keysFor p) k0⟩ : AppliedJobRegistry).lookupKey k0 =
      some (k0, ⟨k0, p.title, p.company, p.apply_url, now1, now1, none, 1⟩) := by
    unfold AppliedJobRegistry.lookupKey
    have hget : dictGet (aliasAll [] (keysFor p) k0) k0 = some k0 := by
      rw [dictGet_aliasAll]
      simp [hk0mem]
    simp only [hget]
    simp [hk0ne, dictGet]
  have hfe2 : (⟨[(k0, ⟨k0, p.title, p.company, p.apply_url, now1, now1, none,
      1⟩)], aliasAll [] (keysFor p) k0⟩ : AppliedJobRegistry).findExisting
        (keysFor p) =
      some (k0, ⟨k0, p.title, p.company, p.apply_url, now1, now1, none, 1⟩) := by
    unfold AppliedJobRegistry.findExisting
    exact findSome?_head _ _ _ _ hkeys _ hlk1
  have hR2 : (⟨[(k0, ⟨k0, p.title, p.company, p.apply_url, now1, now1, none,
      1⟩)], aliasAll [] (keysFor p) k0⟩ : AppliedJobRegistry).record p none
        now2 =
      (⟨[(k0, touchedRecord ⟨k0, p.title, p.company, p.apply_url, now1, now1,
          none, 1⟩ p none now2)],
        aliasAll (aliasAll [] (keysFor p) k0) (keysFor p) k0⟩,
       touchedRecord ⟨k0, p.title, p.company, p.apply_url, now1, now1, none,
         1⟩ p none now2) := by
    rw [record_of_findExisting_some _ _ _ _ _ _ hfe2]
    simp [dictSet]
  rw [hR1, hR2]
  -- occurrences of the touched record after the second call
  have hocc : (touchedRecord ⟨k0, p.title, p.company, p.apply_url, now1, now1,
      none, 1⟩ p none now2).occurrences = 2 :=
    touchedRecord_occurrences _ _ _ _
  have hkey2 : (touchedRecord ⟨k0, p.title, p.company, p.apply_url, now1, now1,
      none, 1⟩ p none now2).key = k0 :=
    touchedRecord_key _ _ _ _
  -- third call: the touched record is found again through the aliases
  have hlk2 : (⟨[(k0, touchedRecord ⟨k0, p.title, p.company, p.apply_url, now1,
      now1, none, 1⟩ p none now2)],
        aliasAll (aliasAll [] (keysFor p) k0) (keysFor p) k0⟩ :
          AppliedJobRegistry).lookupKey k0 =
      some (k0, touchedRecord ⟨k0, p.title, p.company, p.apply_url, now1, now1,
        none, 1⟩ p none now2) := by
    unfold AppliedJobRegistry.lookupKey
    have hget : dictGet (aliasAll (aliasAll [] (keysFor p) k0) (keysFor p) k0)
        k0 = some k0 := by
      rw [dictGet_aliasAll]
      simp [hk0mem]
    simp only [hget]
    simp [hk0ne, dictGet]
  have hfe3 : (⟨[(k0, touchedRecord ⟨k0, p.title, p.company, p.apply_url, now1,
      now1, none, 1⟩ p none now2)],
        aliasAll (aliasAll [] (keysFor p) k0) (keysFor p) k0⟩ :
          AppliedJobRegistry).findExisting (keysFor p) =
      some (k0, touchedRecord ⟨k0, p.title, p.company, p.apply_url, now1, now1,
        none, 1⟩ p none now2) := by
    unfold AppliedJobRegistry.findExisting
    exact findSome?_head _ _ _ _ hkeys _ hlk2
  rw [record_of_findExisting_some _ _ _ _ _ _ hfe3]
  have htruthy : truthy (some s) = true := by simp [truthy, hs]
  refine ⟨rfl, hocc, ?_, ?_, ?_⟩
  · simp [dictSet]
  · exact touchedRecord_last_status_of_truthy _ _ _ _ htruthy
  · rw [touchedRecord_key]

theorem findSome?_pair {α β : Type} (f : α → Option β) (a b : α) (x : β)
    (hfa : f a = none) (hfb : f b = some x) :
    ([a, b] : List α).findSome? f = some x := by
  simp only [List.findSome?_cons, hfa, hfb]

/-- A posting carrying a title, company and apply URL, as built by the CLI
and search flows. -/
def postingWith (title company u : String) : JobPosting :=
  { title := title, company := company, apply_url := some u }

/-- C4: after recording posting P (title, company, URL U1) on a fresh
registry, recording an equivalent posting with a changed URL U2 but the
identical (title, company) pair resolves to the same record via the shared
role-combo key, and afterwards find returns that same record for postings
carrying either U1 or U2. -/
theorem C4_alias_self_healing (title company u1 u2 k1 k2 c : String)
    (now1 now2 : DateTime)
    (hu1 : normaliseUrl (some u1) = some k1)
    (hu2 : normaliseUrl (some u2) = some k2)
    (hc : comboKey (some title) (some company) = some c) :
    ((((⟨[], []⟩ : AppliedJobRegistry).record (postingWith title company u1)
        none now1).1.record (postingWith title company u2) none now2).2.key =
      ((⟨[], []⟩ : AppliedJobRegistry).record (postingWith title company u1)
        none now1).2.key) ∧
    ((((⟨[], []⟩ : AppliedJobRegistry).record (postingWith title company u1)
        none now1).1.record (postingWith title company u2) none
        now2).1.records.length = 1) ∧
    ((((⟨[], []⟩ : AppliedJobRegistry).record (postingWith title company u1)
        none now1).1.record (postingWith title company u2) none now2).1.find
        (postingWith title company u1) =
      some ((((⟨[], []⟩ : AppliedJobRegistry).record
        (postingWith title company u1) none now1).1.record
        (postingWith title company u2) none now2).2)) ∧
    ((((⟨[], []⟩ : AppliedJobRegistry).record (postingWith title company u1)
        none now1).1.record (postingWith title company u2) none now2).1.find
        (postingWith title company u2) =
      some ((((⟨[], []⟩ : AppliedJobRegistry).record
        (postingWith title company u1) none now1).1.record
        (postingWith title company u2) none now2).2)) := by
  obtain ⟨s1, hk1form⟩ := normaliseUrl_form _ _ hu1
  obtain ⟨s2, hk2form⟩ := normaliseUrl_form _ _ hu2
  obtain ⟨sc, hcform⟩ := comboKey_form _ _ _ hc
  have hk1ne : k1 ≠ "" := by rw [hk1form]; exact append_ne_empty _ _ (by decide)
  have hk2c : k2 ≠ c := by rw [hk2form, hcform]; exact urlKey_ne_comboKey _ _
  have hkeys1 : keysFor (postingWith title company u1) = [k1, c] := by
    unfold keysFor postingWith
    simp only [hu1, hc]
    simp
  have hkeys2 : keysFor (postingWith title company u2) = [k2, c] := by
    unfold keysFor postingWith
    simp only [hu2, hc]
    simp
  have hk1mem : k1 ∈ keysFor (postingWith title company u1) := by
    rw [hkeys1]; simp
  have hcmem : c ∈ keysFor (postingWith title company u1) := by
    rw [hkeys1]; simp
  have hh1 : (keysFor (postingWith title company u1)).headD "" = k1 := by
    rw [hkeys1]; rfl
  have hfe1 : (⟨[], []⟩ : AppliedJobRegistry).findExisting
      (keysFor (postingWith title company u1)) = none := by
    unfold AppliedJobRegistry.findExisting
    rw [List.findSome?_eq_none_iff]
    intro a _
    rfl
  have hR1 : (⟨[], []⟩ : AppliedJobRegistry).record
      (postingWith title company u1) none now1 =
      (⟨[(k1, ⟨k1, title, company, some u1, now1, now1, none, 1⟩)],
        aliasAll [] (keysFor (postingWith title company u1)) k1⟩,
       ⟨k1, title, company, some u1, now1, now1, none, 1⟩) := by
    rw [record_of_findExisting_none _ _ _ _ hfe1, hh1]
    rfl
  -- the second record call finds the existing record: directly when U2
  -- normalises to the same key, else through the shared role-combo key
  have hlkc : (⟨[(k1, ⟨k1, title, company, some u1, now1, now1, none, 1⟩)],
      aliasAll [] (keysFor (postingWith title company u1)) k1⟩ :
        AppliedJobRegistry).lookupKey c =
      some (k1, ⟨k1, title, company, some u1, now1, now1, none, 1⟩) := by
    unfold AppliedJobRegistry.lookupKey
    have hget : dictGet (aliasAll [] (keysFor (postingWith title company u1))
        k1) c = some k1 := by
      rw [dictGet_aliasAll]
      simp [hcmem]
    simp only [hget]
    simp [hk1ne, dictGet]
  have hlk1 : (⟨[(k1, ⟨k1, title, company, some u1, now1, now1, none, 1⟩)],
      aliasAll [] (keysFor (postingWith title company u1)) k1⟩ :
        AppliedJobRegistry).lookupKey k1 =
      some (k1, ⟨k1, title, company, some u1, now1, now1, none, 1⟩) := by
    unfold AppliedJobRegistry.lookupKey
    have hget : dictGet (aliasAll [] (keysFor (postingWith title company u1))
        k1) k1 = some k1 := by
      rw [dictGet_aliasAll]
      simp [hk1mem]
    simp only [hget]
    simp [hk1ne, dictGet]
  have hfe2 : (⟨[(k1, ⟨k1, title, company, some u1, now1, now1, none, 1⟩)],
      aliasAll [] (keysFor (postingWith title company u1)) k1⟩ :
        AppliedJobRegistry).findExisting
        (keysFor (postingWith title company u2)) =
      some (k1, ⟨k1, title, company, some u1, now1, now1, none, 1⟩) := by
    unfold AppliedJobRegistry.findExisting
    by_cases hk21 : k2 = k1
    · refine findSome?_head _ _ _ _ hkeys2 _ ?_
      rw [hk21]
      exact hlk1
    · rw [hkeys2]
      refine findSome?_pair _ _ _ _ ?_ hlkc
      unfold AppliedJobRegistry.lookupKey
      have hget : dictGet (aliasAll []
          (keysFor (postingWith title company u1)) k1) k2 = none := by
        rw [dictGet_aliasAll]
        rw [hkeys1]
        simp [hk21, hk2c, dictGet]
      simp only [hget]
  have hR2 : (⟨[(k1, ⟨k1, title, company, some u1, now1, now1, none, 1⟩)],
      aliasAll [] (keysFor (postingWith title company u1)) k1⟩ :
        AppliedJobRegistry).record (postingWith title company u2) none now2 =
      (⟨[(k1, touchedRecord ⟨k1, title, company, some u1, now1, now1, none, 1⟩
          (postingWith title company u2) none now2)],
        aliasAll (aliasAll [] (keysFor (postingWith title company u1)) k1)
          (keysFor (postingWith title company u2)) k1⟩,
       touchedRecord ⟨k1, title, company, some u1, now1, now1, none, 1⟩
         (postingWith title company u2) none now2) := by
    rw [record_of_findExisting_some _ _ _ _ _ _ hfe2]
    simp [dictSet]
  rw [hR1, hR2]
  have hkey : (touchedRecord ⟨k1, title, company, some u1, now1, now1, none, 1⟩
      (postingWith title company u2) none now2).key = k1 :=
    touchedRecord_key _ _ _ _
  refine ⟨hkey, rfl, ?_, ?_⟩
  · -- find via U1 still resolves to the touched record
    unfold AppliedJobRegistry.find
    refine findSome?_head _ _ _ _ hkeys1 _ ?_
    unfold AppliedJobRegistry.resolveKey
    have hget : dictGet (aliasAll
        (aliasAll [] (keysFor (postingWith title company u1)) k1)
        (keysFor (postingWith title company u2)) k1) k1 = some k1 := by
      rw [dictGet_aliasAll]
      split
      · rfl
      · rw [dictGet_aliasAll]
        simp [hk1mem]
    rw [hget]
    simp [dictGet]
  · -- find via U2 resolves through the freshly registered alias
    unfold AppliedJobRegistry.find
    refine findSome?_head _ _ _ _ hkeys2 _ ?_
    unfold AppliedJobRegistry.resolveKey
    have hget : dictGet (aliasAll
        (aliasAll [] (keysFor (postingWith title company u1)) k1)
        (keysFor (postingWith title company u2)) k1) k2 = some k1 := by
      rw [dictGet_aliasAll]
      rw [hkeys2]
      simp
    rw [hget]
    simp [dictGet]

/-- Witness for C1 at a concrete posting and status. -/
theorem C1_witness :
    ("applied" : String) ≠ "" ∧
    (((((⟨[], []⟩ : AppliedJobRegistry).record samplePosting none 1).1.record
        samplePosting none 2).1.records.length = 1) ∧
    ((((⟨[], []⟩ : AppliedJobRegistry).record samplePosting none 1).1.record
        samplePosting none 2).2.occurrences = 2) ∧
    (((((⟨[], []⟩ : AppliedJobRegistry).record samplePosting none 1).1.record
        samplePosting none 2).1.record samplePosting (some "applied")
        3).1.records.length = 1) ∧
    (((((⟨[], []⟩ : AppliedJobRegistry).record samplePosting none 1).1.record
        samplePosting none 2).1.record samplePosting (some "applied")
        3).2.last_status = some "applied") ∧
    (((((⟨[], []⟩ : AppliedJobRegistry).record samplePosting none 1).1.record
        samplePosting none 2).1.record samplePosting (some "applied")
        3).2.key =
      (((⟨[], []⟩ : AppliedJobRegistry).record samplePosting none 1).1.record
        samplePosting none 2).2.key)) :=
  ⟨by decide, C1_record_twice_one_record samplePosting "applied" (by decide) 1 2 3⟩

/-- Witness for C4 at concrete URLs: same role, changed apply URL. -/
theorem C4_witness :
    normaliseUrl (some "https://acme.example/jobs/1") =
      some "url::acme.example/jobs/1" ∧
    normaliseUrl (some "https://careers.acme.example/jobs/1") =
      some "url::careers.acme.example/jobs/1" ∧
    comboKey (some "Engineer") (some "Acme") = some "role::acme::engineer" ∧
    (((((⟨[], []⟩ : AppliedJobRegistry).record
        (postingWith "Engineer" "Acme" "https://acme.example/jobs/1") none
        4).1.record (postingWith "Engineer" "Acme"
          "https://careers.acme.example/jobs/1") none 5).2.key =
      ((⟨[], []⟩ : AppliedJobRegistry).record
        (postingWith "Engineer" "Acme" "https://acme.example/jobs/1") none
        4).2.key) ∧
    ((((⟨[], []⟩ : AppliedJobRegistry).record
        (postingWith "Engineer" "Acme" "https://acme.example/jobs/1") none
        4).1.record (postingWith "Engineer" "Acme"
          "https://careers.acme.example/jobs/1") none
        5).1.records.length = 1) ∧
    ((((⟨[], []⟩ : AppliedJobRegistry).record
        (postingWith "Engineer" "Acme" "https://acme.example/jobs/1") none
        4).1.record (postingWith "Engineer" "Acme"
          "https://careers.acme.example/jobs/1") none 5).1.find
        (postingWith "Engineer" "Acme" "https://acme.example/jobs/1") =
      some ((((⟨[], []⟩ : AppliedJobRegistry).record
        (postingWith "Engineer" "Acme" "https://acme.example/jobs/1") none
        4).1.record (postingWith "Engineer" "Acme"
          "https://careers.acme.example/jobs/1") none 5).2)) ∧
    ((((⟨[], []⟩ : AppliedJobRegistry).record
        (postingWith "Engineer" "Acme" "https://acme.example/jobs/1") none
        4).1.record (postingWith "Engineer" "Acme"
          "https://careers.acme.example/jobs/1") none 5).1.find
        (postingWith "Engineer" "Acme" "https://careers.acme.example/jobs/1") =
      some ((((⟨[], []⟩ : AppliedJobRegistry).record
        (postingWith "Engineer" "Acme" "https://acme.example/jobs/1") none
        4).1.record (postingWith "Engineer" "Acme"
          "https://careers.acme.example/jobs/1") none 5).2))) :=
  ⟨by decide, by decide, by decide,
    C4_alias_self_healing "Engineer" "Acme" "https://acme.example/jobs/1"
      "https://careers.acme.example/jobs/1" "url::acme.example/jobs/1"
      "url::careers.acme.example/jobs/1" "role::acme::engineer" 4 5
      (by decide) (by decide) (by decide)⟩

theorem queueSnapshot_roundtrip (q : ApplicationQueue) :
    ApplicationQueue.from_snapshot q.to_snapshot = q := by
  unfold ApplicationQueue.from_snapshot ApplicationQueue.to_snapshot
  rw [List.map_map]
  have h : q.items.map
      (QueuedApplication.from_dict ∘ QueuedApplication.to_dict) = q.items := by
    have h2 : q.items.map
        (QueuedApplication.from_dict ∘ QueuedApplication.to_dict) =
        q.items.map id :=
      List.map_congr_left (fun a _ => taskDict_roundtrip a)
    rw [h2, List.map_id]
  rw [h]

theorem dictGet_append_none {α : Type} (a0 : Dict α) (k e : String) (v : α)
    (h1 : dictGet a0 e = none) (h2 : e ≠ k) :
    dictGet (a0 ++ [(k, v)]) e = none := by
  induction a0 with
  | nil => simp [dictGet, h2, Ne.symm h2]
  | cons hd tl ih =>
    obtain ⟨k', v'⟩ := hd
    by_cases hk : k' = e
    · simp [dictGet, hk] at h1
    · simp only [dictGet, if_neg hk] at h1
      simp only [List.cons_append, dictGet, if_neg hk]
      exact ih h1

theorem foldRecords_eq (rs : Dict AppliedJobRecord)
    (a0 : Dict AppliedJobRecord)
    (hwf : ∀ e ∈ rs, e.2.key = e.1)
    (hnd : (rs.map (fun e => e.1)).Nodup)
    (hfresh : ∀ e ∈ rs, dictGet a0 e.1 = none) :
    ((dictValues rs).map AppliedJobRecord.to_dict).foldl
      (fun d en => dictSet d en.key (AppliedJobRecord.from_dict en)) a0 =
    a0 ++ rs := by
  induction rs generalizing a0 with
  | nil => simp [dictValues]
  | cons hd tl ih =>
    obtain ⟨k, rec⟩ := hd
    simp only [dictValues, List.map_cons, List.foldl_cons]
    have hk : rec.key = k := hwf (k, rec) (List.mem_cons_self _ _)
    have step : dictSet a0 (AppliedJobRecord.to_dict rec).key
        (AppliedJobRecord.from_dict (AppliedJobRecord.to_dict rec)) =
        a0 ++ [(k, rec)] := by
      rw [recordDict_roundtrip]
      rw [show (AppliedJobRecord.to_dict rec).key = k from hk]
      exact dictSet_append_of_not_mem a0 k rec
        (hfresh (k, rec) (List.mem_cons_self _ _))
    rw [step]
    have hnd2 : (tl.map (fun e => e.1)).Nodup := (List.nodup_cons.mp hnd).2
    have hknotin : k ∉ tl.map (fun e => e.1) := (List.nodup_cons.mp hnd).1
    have hfresh2 : ∀ e ∈ tl, dictGet (a0 ++ [(k, rec)]) e.1 = none := by
      intro e he
      refine dictGet_append_none _ _ _ _ (hfresh e (List.mem_cons_of_mem _ he)) ?_
      intro hek
      exact hknotin (hek ▸ List.mem_map_of_mem (fun e => e.1) he)
    have ih2 := ih (a0 ++ [(k, rec)])
      (fun e he => hwf e (List.mem_cons_of_mem _ he)) hnd2 hfresh2
    simp only [dictValues] at ih2
    rw [ih2]
    simp [List.append_assoc]

theorem registrySnapshot_roundtrip (r : AppliedJobRegistry)
    (hwf : ∀ e ∈ r.records, e.2.key = e.1)
    (hnd : (r.records.map (fun e => e.1)).Nodup)
    (hal : ∀ kv ∈ r.aliases, dictMem r.records kv.2 = true) :
    AppliedJobRegistry.from_snapshot (some r.to_snapshot) = r := by
  unfold AppliedJobRegistry.from_snapshot AppliedJobRegistry.to_snapshot
  simp only []
  rw [foldRecords_eq r.records [] hwf hnd (fun e _ => rfl)]
  simp only [List.nil_append]
  rw [List.filter_eq_self.mpr hal]

/-- C2: saving the combined state and loading it back reproduces an equal
queue (every queued-task field round-trips, including the posting's apply
URL and contact email, notes order and outcome timestamps) and an equal
registry (same records and aliases, hence the same alias resolution for
every posting), for every registry satisfying the documented invariant
that records are keyed by their own key, keys are unique, and every alias
targets an existing record. -/
theorem C2_save_load_roundtrip (profile : CandidateProfile)
    (skills : SkillsInventory) (queue : ApplicationQueue)
    (registry : AppliedJobRegistry)
    (hwf : ∀ e ∈ registry.records, e.2.key = e.1)
    (hnd : (registry.records.map (fun e => e.1)).Nodup)
    (hal : ∀ kv ∈ registry.aliases, dictMem registry.records kv.2 = true) :
    ∃ pr sk, Storage.load (some (some (Storage.save profile skills queue
      registry))) = Except.ok (pr, sk, queue, registry) := by
  refine ⟨some (CandidateProfile.from_dict profile.to_dict),
    if skills.to_snapshot = [] then none
    else some (SkillsInventory.from_snapshot skills.to_snapshot), ?_⟩
  unfold Storage.load Storage.save
  simp only []
  rw [queueSnapshot_roundtrip queue]
  rw [registrySnapshot_roundtrip registry hwf hnd hal]

/-- Sample record/registry/profile fixtures for the round-trip witness. -/
def sampleRecord : AppliedJobRecord :=
  ⟨"k", "Engineer", "Acme", none, 1, 1, none, 1⟩

/-- A small well-formed registry: one record keyed by its own key, one
alias resolving to it. -/
def sampleRegistry : AppliedJobRegistry :=
  ⟨[("k", sampleRecord)], [("k", "k")]⟩

/-- A small candidate profile. -/
def sampleProfile : CandidateProfile :=
  { name := "Jane", email := "jane@example.com" }

/-- Witness for C2 at a concrete profile, inventory, queue and registry. -/
theorem C2_witness :
    (∀ e ∈ sampleRegistry.records, e.2.key = e.1) ∧
    (sampleRegistry.records.map (fun e => e.1)).Nodup ∧
    (∀ kv ∈ sampleRegistry.aliases,
      dictMem sampleRegistry.records kv.2 = true) ∧
    ∃ pr sk, Storage.load (some (some (Storage.save sampleProfile ⟨[]⟩
      ⟨[sampleTask]⟩ sampleRegistry))) =
        Except.ok (pr, sk, (⟨[sampleTask]⟩ : ApplicationQueue),
          sampleRegistry) :=
  ⟨by decide, by decide, by decide,
    C2_save_load_roundtrip sampleProfile ⟨[]⟩ ⟨[sampleTask]⟩ sampleRegistry
      (by decide) (by decide) (by decide)⟩

end Jobofcron
